import Mathlib

/-!
Verification of the ClickHouse dialect of the data-diff value-normalization
layer (`src/data_diff/databases/clickhouse.py`).

The Python `Dialect` methods are string builders: each one assembles a SQL
fragment out of ClickHouse builtin calls.  The development embeds them twice:

* builder functions (`Dialect.quote`, `Dialect.to_string`,
  `Dialect.parse_type`, `Dialect.md5_as_int`, `Dialect.normalize_number`,
  `Dialect.normalize_timestamp`, ...) mirror the Python string assembly and
  the type-classification control flow;
* evaluation functions (`evalNormalizeNumber`, `evalNormalizeTimestamp`,
  `evalMd5AsInt`) mirror, step for step, what the emitted fragment computes
  when ClickHouse executes it, with every ClickHouse builtin that appears in
  a fragment modelled by its own Lean function (`roundTo` for `round`,
  `decToStringCH` for `toString` on `Decimal128`, `leftCH` for `left`,
  `intDigitsCH` for `greatest(floor(log10(abs x)) + 1, 1)`, `lpadCH`/`rpadCH`
  for `lpad`/`rpad`, `formatDateTime` for `formatDateTime(.., '%Y-%m-%d
  %H:%M:%S')`, and so on).

Modelling conventions: numeric values are exact rationals (the engine's
`Decimal` semantics; float representation error is out of scope), timestamps
are microsecond counts from the Unix epoch as naturals (ClickHouse `DateTime`
starts at the epoch; `DateTime64` years never exceed four digits), and
rounding ties are resolved half-up on the nonnegative arguments the code
produces (the claims under check are insensitive to the tie rule).
Constants imported by the source from `data_diff.databases.base`
(`MD5_HEXDIGITS`, `CHECKSUM_HEXDIGITS`, `CHECKSUM_OFFSET`,
`TIMESTAMP_PRECISION_POS`) are not part of `src/`; they are modelled from the
spec, either as concrete values the spec determines or as parameters
constrained by the spec's stated invariant.
-/

/-! ## Decimal digit rendering -/

/-- The low `w` decimal digits of `x`, most significant first, with leading
zeros, as ClickHouse renders a fixed-scale fractional part. -/
def padDec : Nat → Nat → List Char
  | 0, _ => []
  | w + 1, x => padDec w (x / 10) ++ [Nat.digitChar (x % 10)]

/-- Digit-rendering worker, structurally recursive on a fuel bound so that
it evaluates inside the kernel; any fuel above the argument suffices. -/
def natDecCore : Nat → Nat → List Char
  | 0, _ => []
  | fuel + 1, n =>
    if n < 10 then [Nat.digitChar n]
    else natDecCore fuel (n / 10) ++ [Nat.digitChar (n % 10)]

/-- Decimal digits of `n`, no leading zeros (`0` renders as `"0"`); the model
of ClickHouse `toString` on a nonnegative integer. -/
def natDec (n : Nat) : List Char := natDecCore (n + 1) n

/-- ClickHouse `toString` of a nonnegative integer. -/
def natToStr (n : Nat) : String := String.mk (natDec n)

/-- ClickHouse `toString` of a (possibly negative) integer. -/
def intToStr (z : Int) : String :=
  if z < 0 then ("-") ++ natToStr z.natAbs else natToStr z.toNat

/-! ## List-level models of the string builtins used by the fragments -/

/-- Character-list prefix test (an empty pattern matches anything). -/
def isPfx : List Char → List Char → Bool
  | [], _ => true
  | _ :: _, [] => false
  | a :: as, b :: bs => a == b && isPfx as bs

/-- Python `str.startswith`, and the string prefix tests of the dialect. -/
def pyStartsWith (s pre : String) : Bool := isPfx pre.data s.data

/-- Python slicing `s[n:]`. -/
def pyDrop (s : String) (n : Nat) : String := String.mk (s.data.drop n)

/-- Python `s.rstrip(")")`: remove every trailing `')'`. -/
def rstripParens (s : String) : String :=
  String.mk ((s.data.reverse.dropWhile (fun c => c == ')')).reverse)

/-- ClickHouse `left(s, n)` for a nonnegative length. -/
def leftCH (s : String) (n : Nat) : String := String.mk (s.data.take n)

/-- Left padding on character lists: pad to length `n`, truncating to the
first `n` characters when the list is longer. -/
def lpadL (l : List Char) (n : Nat) (c : Char) : List Char :=
  if n ≤ l.length then l.take n else List.replicate (n - l.length) c ++ l

/-- Right padding on character lists: pad to length `n`, truncating to the
first `n` characters when the list is longer. -/
def rpadL (l : List Char) (n : Nat) (c : Char) : List Char :=
  if n ≤ l.length then l.take n else l ++ List.replicate (n - l.length) c

/-- ClickHouse `lpad(s, n, c)`: left-pad to length `n`, truncating to the
first `n` characters when `s` is longer. -/
def lpadCH (s : String) (n : Nat) (c : Char) : String := String.mk (lpadL s.data n c)

/-- ClickHouse `rpad(s, n, c)`: right-pad to length `n`, truncating to the
first `n` characters when `s` is longer. -/
def rpadCH (s : String) (n : Nat) (c : Char) : String := String.mk (rpadL s.data n c)

/-- Trailing `'0'` characters removed, as ClickHouse drops trailing
fractional zeros when casting a `Decimal` to `String` (documented in the
source's own comment: `toString(toDecimal128(1.10, 2))` is `1.1`). -/
def dropTrailZeros (l : List Char) : List Char :=
  (l.reverse.dropWhile (fun c => c == '0')).reverse

/-! ## Hex digests and the checksum integer projection -/

/-- The value of one hexadecimal digit character, either case. -/
def hexDigitVal (c : Char) : Nat :=
  if 97 ≤ c.toNat then c.toNat - 87
  else if 65 ≤ c.toNat then c.toNat - 55
  else c.toNat - 48

/-- Every character that can appear in a hexadecimal digest. -/
def hexChars : List Char := ("0123456789ABCDEFabcdef").data

/-- Big-endian value of a run of hex digit characters. -/
def hexBE (l : List Char) : Nat :=
  l.foldl (fun acc c => 16 * acc + hexDigitVal c) 0

/-- ClickHouse `unhex` on an even-length digit run: big-endian bytes, two
digits per byte. -/
def unhexPairs : List Char → List Nat
  | [] => []
  | [a] => [hexDigitVal a]
  | a :: b :: t => (16 * hexDigitVal a + hexDigitVal b) :: unhexPairs t

/-- ClickHouse `unhex`: an odd-length argument reads as if a leading `0`
digit were prepended. -/
def unhexCH (l : List Char) : List Nat :=
  if l.length % 2 = 1 then unhexPairs ('0' :: l) else unhexPairs l

/-- Value of a byte run read little-endian (first byte least significant). -/
def bytesLE (l : List Nat) : Nat := l.foldr (fun b acc => b + 256 * acc) 0

/-- ClickHouse `reinterpretAsUInt128`: the first sixteen bytes of the
argument read little-endian, missing bytes as zero. -/
def reinterpretAsUInt128 (l : List Nat) : Nat := bytesLE l % 2 ^ 128

/-- ClickHouse `lowerUTF8` on a digest. -/
def lowerUTF8 (l : List Char) : List Char := l.map Char.toLower

/-- ClickHouse `substr(s, i)` with a 1-based start and no length: the suffix
from position `i`. -/
def substrCH (l : List Char) (i : Nat) : List Char := l.drop (i - 1)

/-! ## Numeric evaluation model -/

/-- Numerator of `round(a, p)` at scale `p`, for the nonnegative arguments
the fragment produces (ties half-up; the claims are tie-insensitive). -/
def roundNum (a : ℚ) (p : Nat) : Nat := ⌊a * 10 ^ p + 1 / 2⌋₊

/-- ClickHouse `round(a, p)`: `a` rounded to `p` fractional digits. -/
def roundTo (a : ℚ) (p : Nat) : ℚ := (roundNum a p : ℚ) / 10 ^ p

/-- ClickHouse `round(q)` to an integer (model of the `precision == 0`
branch). -/
def roundInt (q : ℚ) : ℤ := ⌊q + 1 / 2⌋

/-- Scaled numerator held by `toDecimal128(x, scale)`; the fragment only
converts values exact at `scale`, so the conversion's tie rule is inert. -/
def toDecimal128Num (x : ℚ) (scale : Nat) : Nat := ⌊x * 10 ^ scale + 1 / 2⌋₊

/-- ClickHouse `toUInt8(greatest(floor(log10(a)) + 1, 1))` before the `% 256`
wrap, for the nonnegative `a = abs(value)` the fragment supplies: `1` when
`a < 1` (including `a = 0`, where `log10` is `-inf` and `greatest` picks
`1`), and the decimal digit count of `⌊a⌋` otherwise. -/
def intDigitsCH (a : ℚ) : Nat :=
  if a < 1 then 1 else Nat.log 10 ⌊a⌋₊ + 1

/-- ClickHouse `toString` on a `Decimal128` with numerator `m` at scale
`scale`: integer part, then the fractional digits with trailing zeros (and a
then-empty point) dropped. -/
def decToStringCH (m : Nat) (scale : Nat) : String :=
  let ip := m / 10 ^ scale
  let frac := dropTrailZeros (padDec scale (m % 10 ^ scale))
  if frac = [] then natToStr ip else natToStr ip ++ (".") ++ String.mk frac

/-! ## Timestamp evaluation model -/

/-- Proleptic Gregorian date for a day count from 1970-01-01, as
`formatDateTime` renders it (year, month, day). -/
def civilFromDays (z0 : Nat) : Nat × Nat × Nat :=
  let z := z0 + 719468
  let era := z / 146097
  let doe := z % 146097
  let yoe := (doe - doe / 1460 + doe / 36524 - doe / 146096) / 365
  let y := yoe + era * 400
  let doy := doe - (365 * yoe + yoe / 4 - yoe / 100)
  let mp := (5 * doy + 2) / 153
  let d := doy - (153 * mp + 2) / 5 + 1
  let m := if mp < 10 then mp + 3 else mp - 9
  (if m ≤ 2 then y + 1 else y, m, d)

/-- ClickHouse `formatDateTime(t, '%Y-%m-%d %H:%M:%S')` on a whole-second
count from the epoch.  Each field is written at fixed width, so the result
always has nineteen characters (`DateTime64` years have four digits). -/
def formatDateTime (secs : Nat) : String :=
  let sod := secs % 86400
  let c := civilFromDays (secs / 86400)
  String.mk (padDec 4 c.1 ++ '-' :: padDec 2 c.2.1 ++ '-' :: padDec 2 c.2.2
    ++ ' ' :: padDec 2 (sod / 3600) ++ ':' :: padDec 2 (sod % 3600 / 60)
    ++ ':' :: padDec 2 (sod % 60))

/-- Microseconds of `toUnixTimestamp64Micro(toDateTime64(value, p))` for a
value of `u` microseconds: precision loss truncates (the dialect declares
`ROUNDS_ON_PREC_LOSS = False`), and a scale of six or more changes
nothing. -/
def castScale (u : Nat) (p : Nat) : Nat := u / 10 ^ (6 - p) * 10 ^ (6 - p)

/-- ClickHouse `toString` on a `DateTime64(6)` of `m` microseconds:
seconds-precision prefix, point, and exactly six fractional digits. -/
def dt64ToString6 (m : Nat) : String :=
  formatDateTime (m / 1000000) ++ (".") ++ String.mk (padDec 6 (m % 1000000))

/-! ## Data model -/

/-- Canonical semantic type tags of the type resolver; the constructors
carry the names of the classes the source maps to.  The parameters the real
classes carry (precision, scale) play no part in the classification claims
under check. -/
inductive ColType where
  | Integer
  | Float
  | Decimal
  | Native_UUID
  | Text
  | Timestamp
  | Boolean
deriving DecidableEq, Repr

/-- Error taxonomy of the spec: `UnsupportedType` for a raw type name with
no table entry, `NotSupported` for an operation the dialect cannot express
(the source raises `NotImplementedError`, the taxonomy's `NotSupported`). -/
inductive DiffError where
  | UnsupportedType (raw : String)
  | NotSupported
deriving DecidableEq, Repr

/-- Modelled from the spec: `RawColumnInfo` of `data_diff.schema` (not under
`src/`) carries the raw type-name string; the dialect reads it through
`type_repr` and rewrites it through `data_type`. -/
structure RawColumnInfo where
  data_type : String
deriving DecidableEq, Repr

/-- Modelled from the spec: `type_repr` mirrors the raw type-name string
held in `data_type`. -/
def RawColumnInfo.type_repr (info : RawColumnInfo) : String := info.data_type

/-- A fractional column type as `normalize_number` consumes it. -/
structure FractionalType where
  precision : Nat
deriving DecidableEq, Repr

/-- A temporal column type as `normalize_timestamp` consumes it. -/
structure TemporalType where
  precision : Nat
  rounds : Bool
deriving DecidableEq, Repr

/-- Modelled from the spec: the digest hex-width constant of
`data_diff.databases.base`; an MD5 digest is sixteen bytes, thirty-two hex
digits. -/
def MD5_HEXDIGITS : Nat := 32

/-- Modelled from the spec: the shared total-length constant of
`data_diff.databases.base`, the length of the seconds-precision portion
`YYYY-MM-DD HH:MM:SS.` of a canonical timestamp. -/
def TIMESTAMP_PRECISION_POS : Nat := 20

namespace Dialect

/-- The static raw-name-to-tag table of the dialect (source lines 45-67). -/
def TYPE_CLASSES : List (String × ColType) :=
  [(("Int8"), ColType.Integer),
   (("Int16"), ColType.Integer),
   (("Int32"), ColType.Integer),
   (("Int64"), ColType.Integer),
   (("Int128"), ColType.Integer),
   (("Int256"), ColType.Integer),
   (("UInt8"), ColType.Integer),
   (("UInt16"), ColType.Integer),
   (("UInt32"), ColType.Integer),
   (("UInt64"), ColType.Integer),
   (("UInt128"), ColType.Integer),
   (("UInt256"), ColType.Integer),
   (("Float32"), ColType.Float),
   (("Float64"), ColType.Float),
   (("Decimal"), ColType.Decimal),
   (("UUID"), ColType.Native_UUID),
   (("String"), ColType.Text),
   (("FixedString"), ColType.Text),
   (("DateTime"), ColType.Timestamp),
   (("DateTime64"), ColType.Timestamp),
   (("Bool"), ColType.Boolean)]

/-- Source line 69-70: wrap an identifier in double quotes. -/
def quote (s : String) : String := ("\"") ++ s ++ ("\"")

/-- Source line 72-73: the engine's string cast. -/
def to_string (s : String) : String := ("toString(") ++ s ++ (")")

/-- Source line 101-102. -/
def current_timestamp : String := ("now()")

/-- Source line 98-99: `set_timezone_to_utc` raises `NotImplementedError`,
the `NotSupported` of the spec's error taxonomy; it never builds a
fragment. -/
def set_timezone_to_utc : Except DiffError String :=
  Except.error DiffError.NotSupported

/-- The nullable wrapper marker of `parse_type` (source line 81). -/
def nullableMarker : String := ("Nullable(")

/-- Source lines 82-83: strip the `Nullable(` wrapper and every trailing
`')'` from the remainder (Python `rstrip(")")`). -/
def nullableUnwrap (info : RawColumnInfo) : RawColumnInfo :=
  if pyStartsWith info.type_repr nullableMarker then
    { info with data_type := rstripParens (pyDrop info.type_repr nullableMarker.length) }
  else info

/-- Modelled from the spec: `BaseDialect.parse_type` (not under `src/`)
looks the resolved family name up in the dialect's static table and fails
with `UnsupportedType` when there is no entry. -/
def base_parse_type (info : RawColumnInfo) : Except DiffError ColType :=
  match List.lookup info.data_type TYPE_CLASSES with
  | some t => Except.ok t
  | none => Except.error (DiffError.UnsupportedType info.data_type)

/-- Source lines 85-90: collapse the parameterized `Decimal`, `FixedString`
and `DateTime64` families to their bare family names by prefix match. -/
def familyCollapse (info : RawColumnInfo) : RawColumnInfo :=
  if pyStartsWith info.type_repr ("Decimal") then { info with data_type := ("Decimal") }
  else if pyStartsWith info.type_repr ("FixedString") then { info with data_type := ("FixedString") }
  else if pyStartsWith info.type_repr ("DateTime64") then { info with data_type := ("DateTime64") }
  else info

/-- Source lines 80-92: unwrap the nullable marker, collapse the
parameterized families, and defer to the base table lookup. -/
def parse_type (info : RawColumnInfo) : Except DiffError ColType :=
  base_parse_type (familyCollapse (nullableUnwrap info))

/-- Source line 105: the fixed 1-based start of the checksum substring;
`CHECKSUM_HEXDIGITS` is a parameter here because its value lives outside
`src/`. -/
def substr_idx (chk : Nat) : Nat := 1 + MD5_HEXDIGITS - chk

/-- Source lines 104-108: the checksum fragment, with the checksum width and
centering offset as parameters. -/
def md5_as_int (chk off : Nat) (s : String) : String :=
  ("reinterpretAsUInt128(reverse(unhex(lowerUTF8(substr(hex(MD5(") ++ s
    ++ (")), ") ++ natToStr (substr_idx chk) ++ ("))))) - ") ++ natToStr off

/-- Source lines 110-111. -/
def md5_as_hex (s : String) : String := ("hex(MD5(") ++ s ++ ("))")

/-- Source lines 113-156: the numeric normalization fragment, whitespace
included. -/
def normalize_number (value : String) (coltype : FractionalType) : String :=
  if coltype.precision = 0 then to_string (("round(") ++ value ++ (")"))
  else
    let precision := coltype.precision
    ("\n            if(") ++ value ++ (" >= 0, '', '-') || left(\n                toString(\n                    toDecimal128(\n                        round(abs(") ++ value
      ++ ("), ") ++ natToStr precision
      ++ ("),\n                        ") ++ natToStr precision
      ++ (" + 1\n                    )\n                    +\n                    toDecimal128(\n                        exp10(-") ++ natToStr (precision + 1)
      ++ ("),\n                        ") ++ natToStr precision
      ++ (" + 1\n                    )\n                ),\n                toUInt8(\n                    greatest(\n                        floor(log10(abs(") ++ value
      ++ ("))) + 1,\n                        1\n                    )\n                ) + 1 + ") ++ natToStr precision
      ++ ("\n            )\n        ")

/-- Source lines 158-167: the timestamp normalization fragment. -/
def normalize_timestamp (value : String) (coltype : TemporalType) : String :=
  if coltype.rounds then
    to_string (("toDateTime64(round(toUnixTimestamp64Micro(toDateTime64(") ++ value
      ++ (", 6)) / 1000000, ") ++ natToStr coltype.precision ++ ("), 6)"))
  else
    let fractional := ("toUnixTimestamp64Micro(toDateTime64(") ++ value ++ (", ")
      ++ natToStr coltype.precision ++ (")) % 1000000")
    let fractional := ("lpad(") ++ to_string fractional ++ (", 6, '0')")
    let value := ("formatDateTime(") ++ value ++ (", '%Y-%m-%d %H:%M:%S') || '.' || ")
      ++ to_string fractional
    ("rpad(") ++ value ++ (", ") ++ natToStr (TIMESTAMP_PRECISION_POS + 6) ++ (", '0')")

end Dialect

/-! ## Fragment evaluation -/

/-- What the `normalize_number` fragment computes on an exact value `q` at
precision `p`, step for step: sign from a separate `value >= 0` test, the
absolute value rounded to `p` digits, the epsilon `10^-(p+1)` added at scale
`p + 1`, the decimal cast to string, and `left` at the length
`toUInt8(greatest(floor(log10(abs value)) + 1, 1)) + 1 + p` computed from
the pre-rounding value. -/
def evalNormalizeNumber (q : ℚ) (p : Nat) : String :=
  if p = 0 then intToStr (roundInt q)
  else
    let a := |q|
    let m := toDecimal128Num (roundTo a p + 1 / 10 ^ (p + 1)) (p + 1)
    let len := intDigitsCH a % 256 + 1 + p
    (if 0 ≤ q then ("") else ("-")) ++ leftCH (decToStringCH m (p + 1)) len

/-- What the `normalize_timestamp` fragment computes on a value of `u`
microseconds from the epoch: the rounding branch casts back to a
`DateTime64(6)` and strings it; the truncating branch concatenates the
`formatDateTime` prefix, a point, and the left-padded microsecond remainder
of the value cast to the column's precision, then right-pads the whole to
`TIMESTAMP_PRECISION_POS + 6`. -/
def evalNormalizeTimestamp (u : Nat) (coltype : TemporalType) : String :=
  if coltype.rounds then
    dt64ToString6 ⌊roundTo ((u : ℚ) / 1000000) coltype.precision * 1000000⌋₊
  else
    let m := castScale u coltype.precision % 1000000
    rpadCH (formatDateTime (u / 1000000) ++ (".") ++ lpadCH (natToStr m) 6 '0')
      (TIMESTAMP_PRECISION_POS + 6) '0'

/-- What the `md5_as_int` fragment computes on a digest of
`MD5_HEXDIGITS` hex characters: substring from `substr_idx`, lower-case,
`unhex` to bytes, byte reversal, little-endian reinterpretation, minus the
centering offset. -/
def evalMd5AsInt (chk off : Nat) (digest : List Char) : Int :=
  (reinterpretAsUInt128 ((unhexCH (lowerUTF8 (substrCH digest (Dialect.substr_idx chk)))).reverse) : Int)
    - (off : Int)

instance {ε α : Type} [DecidableEq ε] [DecidableEq α] : DecidableEq (Except ε α) := fun a b =>
  match a, b with
  | Except.ok x, Except.ok y => decidable_of_iff (x = y) (by simp)
  | Except.error x, Except.error y => decidable_of_iff (x = y) (by simp)
  | Except.ok _, Except.error _ => isFalse (by simp)
  | Except.error _, Except.ok _ => isFalse (by simp)

/-! ## String and rendering lemmas -/

theorem data_append (s t : String) : (s ++ t).data = s.data ++ t.data := rfl

theorem str_mk_data (s : String) : String.mk s.data = s := rfl

theorem str_length_mk (l : List Char) : (String.mk l).length = l.length := rfl

theorem str_data_length (s : String) : s.data.length = s.length := rfl

theorem str_ext {s t : String} (h : s.data = t.data) : s = t := by
  cases s; cases t; exact congrArg String.mk h

theorem str_length_append (s t : String) : (s ++ t).length = s.length + t.length := by
  rw [← str_data_length (s ++ t), data_append, List.length_append, str_data_length,
    str_data_length]

theorem isPfx_append_self (l t : List Char) : isPfx l (l ++ t) = true := by
  induction l with
  | nil => rfl
  | cons a as ih => simp [isPfx, ih]

theorem padDec_length (w x : Nat) : (padDec w x).length = w := by
  induction w generalizing x with
  | zero => rfl
  | succ w ih => simp [padDec, ih]

theorem digitChar_isDigit {m : Nat} (h : m < 10) : (Nat.digitChar m).isDigit = true := by
  interval_cases m <;> decide

theorem padDec_all_digits (w x : Nat) : (padDec w x).all Char.isDigit = true := by
  induction w generalizing x with
  | zero => rfl
  | succ w ih =>
    simp only [padDec, List.all_append, ih, Bool.true_and, List.all_cons, List.all_nil,
      Bool.and_true]
    exact digitChar_isDigit (Nat.mod_lt _ (by omega))

theorem natDecCore_fuel {n : Nat} : ∀ {f g : Nat}, n < f → n < g →
    natDecCore f n = natDecCore g n := by
  induction n using Nat.strong_induction_on with
  | _ n ih =>
    intro f g hf hg
    match f, g with
    | f + 1, g + 1 =>
      by_cases h : n < 10
      · simp [natDecCore, h]
      · have hlt : n / 10 < n := Nat.div_lt_self (by omega) (by omega)
        simp only [natDecCore, if_neg h]
        rw [ih (n / 10) hlt (show n / 10 < f by omega) (show n / 10 < g by omega)]

theorem natDec_eq (n : Nat) : natDec n =
    if n < 10 then [Nat.digitChar n]
    else natDec (n / 10) ++ [Nat.digitChar (n % 10)] := by
  show natDecCore (n + 1) n = _
  by_cases h : n < 10
  · simp [natDecCore, h]
  · have hlt : n / 10 < n := Nat.div_lt_self (by omega) (by omega)
    simp only [natDecCore, if_neg h, if_false]
    rw [natDecCore_fuel (show n / 10 < n by omega) (show n / 10 < n / 10 + 1 by omega)]
    rfl

theorem natDec_length (n : Nat) : (natDec n).length = Nat.log 10 n + 1 := by
  induction n using Nat.strong_induction_on with
  | _ n ih =>
    by_cases h : n < 10
    · rw [natDec_eq]
      simp [h, Nat.log_eq_zero_iff.mpr (Or.inl h)]
    · rw [natDec_eq]
      simp only [if_neg h, List.length_append, List.length_cons, List.length_nil]
      rw [ih (n / 10) (Nat.div_lt_self (by omega) (by omega))]
      have h1 : Nat.log 10 (n / 10) = Nat.log 10 n - 1 := Nat.log_div_base 10 n
      have h2 : 0 < Nat.log 10 n := Nat.log_pos (by omega) (by omega)
      omega

theorem natDec_length_le {k n : Nat} (hk : 1 ≤ k) (h : n < 10 ^ k) :
    (natDec n).length ≤ k := by
  rw [natDec_length]
  rcases Nat.eq_zero_or_pos n with h0 | h0
  · subst h0; simpa using hk
  · have := Nat.log_lt_of_lt_pow (by omega : n ≠ 0) h
    omega

theorem rpadL_length (l : List Char) (n : Nat) (c : Char) : (rpadL l n c).length = n := by
  unfold rpadL
  split
  next h =>
    rw [List.length_take]
    omega
  next h =>
    rw [List.length_append, List.length_replicate]
    omega

theorem rpadCH_length (s : String) (n : Nat) (c : Char) : (rpadCH s n c).length = n := by
  show (String.mk (rpadL s.data n c)).length = n
  rw [str_length_mk, rpadL_length]

theorem formatDateTime_length (secs : Nat) : (formatDateTime secs).length = 19 := by
  unfold formatDateTime
  simp [str_length_mk, List.length_append, padDec_length]

/-! ## Claim C6 -/

/-- C6: `set_timezone_to_utc` never returns a SQL fragment; every call
signals the `NotSupported` error of the error taxonomy. -/
theorem set_timezone_to_utc_not_supported :
    Dialect.set_timezone_to_utc = Except.error DiffError.NotSupported := rfl

/-! ## Claim C8 -/

/-- C8: at precision zero `normalize_number` skips the epsilon adjustment
and returns exactly the engine string cast applied to `round(value)` — no
sign handling, epsilon addition, or string truncation appears in the
fragment. -/
theorem normalize_number_precision_zero (value : String) :
    Dialect.normalize_number value ⟨0⟩ = ("toString(round(") ++ value ++ ("))") := by
  apply str_ext
  simp only [Dialect.normalize_number, Dialect.to_string, data_append]
  simp [List.append_assoc]

/-! ## Claim C9 -/

/-- C9: `quote` wraps the identifier verbatim in double quotes, leaving its
content uninterpreted, and distinct identifiers quote to distinct
strings. -/
theorem quote_injective :
    (∀ s₁ s₂ : String, Dialect.quote s₁ = Dialect.quote s₂ → s₁ = s₂)
    ∧ (∀ s : String, (Dialect.quote s).data = '"' :: (s.data ++ ['"'])) := by
  constructor
  · intro s₁ s₂ h
    have h1 : '"' :: (s₁.data ++ ['"']) = '"' :: (s₂.data ++ ['"']) := by
      have h0 := congrArg String.data h
      simpa [Dialect.quote, data_append, List.append_assoc] using h0
    injection h1 with _ h2
    exact str_ext (List.append_cancel_right h2)
  · intro s
    simp [Dialect.quote, data_append, List.append_assoc]

/-- Witness for C9 at a concrete identifier. -/
theorem quote_injective_witness : ("a" : String) = ("a") :=
  quote_injective.1 ("a") ("a") rfl

theorem isPfx_refl (l : List Char) : isPfx l l = true := by
  have h := isPfx_append_self l []
  rwa [List.append_nil] at h

/-- Whatever `rstrip(")")` removes, the result of unwrapping a value that
begins with a family name whose reverse sheds no parentheses still begins
with that family name. -/
theorem rstrip_family_shape (d x : List Char)
    (hd : List.dropWhile (fun c => c == ')') d.reverse = d.reverse) :
    ∃ rest, (rstripParens (String.mk (d ++ x))).data = d ++ rest := by
  show ∃ rest, ((d ++ x).reverse.dropWhile (fun c => c == ')')).reverse = d ++ rest
  rw [List.reverse_append, List.dropWhile_append]
  split
  next he => exact ⟨[], by rw [hd, List.reverse_reverse, List.append_nil]⟩
  next he =>
    exact ⟨(List.dropWhile (fun c => c == ')') x.reverse).reverse,
      by rw [List.reverse_append, List.reverse_reverse]⟩

theorem parse_type_wrapped_decimal (args : String) :
    Dialect.parse_type ⟨("Nullable(") ++ (("Decimal") ++ args) ++ (")")⟩
      = Except.ok ColType.Decimal := by
  obtain ⟨rest, hr⟩ := rstrip_family_shape (("Decimal" : String).data)
    (args.data ++ (')' :: [])) (by decide)
  show Dialect.base_parse_type (Dialect.familyCollapse
    ⟨rstripParens (String.mk ((("Decimal" : String).data) ++ (args.data ++ (')' :: []))))⟩) = _
  unfold Dialect.familyCollapse
  simp only [RawColumnInfo.type_repr]
  rw [show pyStartsWith
      (rstripParens (String.mk ((("Decimal" : String).data) ++ (args.data ++ (')' :: [])))))
      (("Decimal")) = true from by
    show isPfx (("Decimal" : String).data)
      (rstripParens (String.mk ((("Decimal" : String).data)
        ++ (args.data ++ (')' :: []))))).data = true
    rw [hr]
    exact isPfx_append_self _ _]
  rfl

theorem parse_type_wrapped_fixedstring (args : String) :
    Dialect.parse_type ⟨("Nullable(") ++ (("FixedString") ++ args) ++ (")")⟩
      = Except.ok ColType.Text := by
  obtain ⟨rest, hr⟩ := rstrip_family_shape (("FixedString" : String).data)
    (args.data ++ (')' :: [])) (by decide)
  show Dialect.base_parse_type (Dialect.familyCollapse
    ⟨rstripParens (String.mk ((("FixedString" : String).data)
      ++ (args.data ++ (')' :: []))))⟩) = _
  unfold Dialect.familyCollapse
  simp only [RawColumnInfo.type_repr]
  rw [show pyStartsWith
      (rstripParens (String.mk ((("FixedString" : String).data) ++ (args.data ++ (')' :: [])))))
      (("Decimal")) = false from by
    show isPfx (("Decimal" : String).data)
      (rstripParens (String.mk ((("FixedString" : String).data)
        ++ (args.data ++ (')' :: []))))).data = false
    rw [hr]
    rfl]
  rw [show pyStartsWith
      (rstripParens (String.mk ((("FixedString" : String).data) ++ (args.data ++ (')' :: [])))))
      (("FixedString")) = true from by
    show isPfx (("FixedString" : String).data)
      (rstripParens (String.mk ((("FixedString" : String).data)
        ++ (args.data ++ (')' :: []))))).data = true
    rw [hr]
    exact isPfx_append_self _ _]
  rfl

theorem parse_type_wrapped_datetime64 (args : String) :
    Dialect.parse_type ⟨("Nullable(") ++ (("DateTime64") ++ args) ++ (")")⟩
      = Except.ok ColType.Timestamp := by
  obtain ⟨rest, hr⟩ := rstrip_family_shape (("DateTime64" : String).data)
    (args.data ++ (')' :: [])) (by decide)
  show Dialect.base_parse_type (Dialect.familyCollapse
    ⟨rstripParens (String.mk ((("DateTime64" : String).data)
      ++ (args.data ++ (')' :: []))))⟩) = _
  unfold Dialect.familyCollapse
  simp only [RawColumnInfo.type_repr]
  rw [show pyStartsWith
      (rstripParens (String.mk ((("DateTime64" : String).data) ++ (args.data ++ (')' :: [])))))
      (("Decimal")) = false from by
    show isPfx (("Decimal" : String).data)
      (rstripParens (String.mk ((("DateTime64" : String).data)
        ++ (args.data ++ (')' :: []))))).data = false
    rw [hr]
    rfl]
  rw [show pyStartsWith
      (rstripParens (String.mk ((("DateTime64" : String).data) ++ (args.data ++ (')' :: [])))))
      (("FixedString")) = false from by
    show isPfx (("FixedString" : String).data)
      (rstripParens (String.mk ((("DateTime64" : String).data)
        ++ (args.data ++ (')' :: []))))).data = false
    rw [hr]
    rfl]
  rw [show pyStartsWith
      (rstripParens (String.mk ((("DateTime64" : String).data) ++ (args.data ++ (')' :: [])))))
      (("DateTime64")) = true from by
    show isPfx (("DateTime64" : String).data)
      (rstripParens (String.mk ((("DateTime64" : String).data)
        ++ (args.data ++ (')' :: []))))).data = true
    rw [hr]
    exact isPfx_append_self _ _]
  rfl

/-! ## Claim C5 -/

/-- C5: every nullable-wrapped supported raw name — table names and
parameterized family forms alike — classifies as its unwrapped form, every
parameterized form of the `Decimal`, `FixedString` and `DateTime64` families
classifies as the bare family name, and in particular `Nullable(UInt32)` and
`UInt32` both classify as `Integer`. -/
theorem parse_type_nullable_and_families :
    (∀ p ∈ Dialect.TYPE_CLASSES,
        Dialect.parse_type ⟨("Nullable(") ++ p.1 ++ (")")⟩ = Dialect.parse_type ⟨p.1⟩)
    ∧ (∀ args : String,
        Dialect.parse_type ⟨("Decimal") ++ args⟩ = Dialect.parse_type ⟨("Decimal")⟩
        ∧ Dialect.parse_type ⟨("FixedString") ++ args⟩ = Dialect.parse_type ⟨("FixedString")⟩
        ∧ Dialect.parse_type ⟨("DateTime64") ++ args⟩ = Dialect.parse_type ⟨("DateTime64")⟩)
    ∧ (∀ args : String,
        Dialect.parse_type ⟨("Nullable(") ++ (("Decimal") ++ args) ++ (")")⟩
          = Dialect.parse_type ⟨("Decimal") ++ args⟩
        ∧ Dialect.parse_type ⟨("Nullable(") ++ (("FixedString") ++ args) ++ (")")⟩
          = Dialect.parse_type ⟨("FixedString") ++ args⟩
        ∧ Dialect.parse_type ⟨("Nullable(") ++ (("DateTime64") ++ args) ++ (")")⟩
          = Dialect.parse_type ⟨("DateTime64") ++ args⟩)
    ∧ Dialect.parse_type ⟨("Nullable(UInt32)")⟩ = Except.ok ColType.Integer
    ∧ Dialect.parse_type ⟨("UInt32")⟩ = Except.ok ColType.Integer :=
  ⟨by decide, fun _ => ⟨rfl, rfl, rfl⟩,
   fun args => ⟨(parse_type_wrapped_decimal args).trans rfl,
     (parse_type_wrapped_fixedstring args).trans rfl,
     (parse_type_wrapped_datetime64 args).trans rfl⟩,
   by decide, by decide⟩

/-- Witness for C5 at the table entry for `UInt32`. -/
theorem parse_type_nullable_and_families_witness :
    Dialect.parse_type ⟨("Nullable(UInt32)")⟩ = Dialect.parse_type ⟨("UInt32")⟩ :=
  parse_type_nullable_and_families.1 ((("UInt32"), ColType.Integer)) (by decide)

/-! ## Claim C10 -/

theorem length_dropWhile_le (p : Char → Bool) (l : List Char) :
    (l.dropWhile p).length ≤ l.length := by
  induction l with
  | nil => simp
  | cons a t ih =>
    rw [List.dropWhile_cons]
    split
    · exact le_trans ih (by simp)
    · simp

/-- Stripping every trailing parenthesis from `s ++ ")"` gives the same
result as stripping them from `s`: the added parenthesis is consumed and
the stripping continues into `s`. -/
theorem rstripParens_append_paren (s : String) :
    rstripParens (String.mk (s.data ++ (')' :: []))) = rstripParens s := by
  show String.mk (((s.data ++ (')' :: [])).reverse.dropWhile (fun c => c == ')')).reverse) = _
  rw [List.reverse_append]
  show String.mk ((List.dropWhile (fun c => c == ')') (')' :: s.data.reverse)).reverse) = _
  rw [List.dropWhile_cons, if_pos (by decide)]
  rfl

theorem rstripParens_length_le (s : String) : (rstripParens s).length ≤ s.length := by
  show ((s.data.reverse.dropWhile (fun c => c == ')')).reverse).length ≤ s.data.length
  rw [List.length_reverse]
  exact le_trans (length_dropWhile_le _ _) (by rw [List.length_reverse])

/-- C10: for every inner type string, unwrapping `Nullable(inner)` strips
every trailing `')'` — the remainder is `rstrip(inner ++ ")")`, which equals
`rstrip(inner)`, so when the inner representation itself ends in `')'` it
comes out strictly shorter, losing its own closing parenthesis; yet for
every parameterized form of the `Decimal`, `FixedString` and `DateTime64`
families the wrapped type still classifies, because the family prefix match
precedes the table lookup.  The `Nullable(Decimal(10, 2))` instance shows
the malformed intermediate `Decimal(10, 2` concretely. -/
theorem parse_type_rstrip_all_trailing_parens :
    (∀ inner : String,
      (Dialect.nullableUnwrap ⟨("Nullable(") ++ inner ++ (")")⟩).data_type
        = rstripParens inner)
    ∧ (∀ s : String,
      (rstripParens (String.mk (s.data ++ (')' :: [])))).length
        < (String.mk (s.data ++ (')' :: []))).length)
    ∧ (∀ args : String,
      Dialect.parse_type ⟨("Nullable(") ++ (("Decimal") ++ args ++ (")")) ++ (")")⟩
        = Except.ok ColType.Decimal
      ∧ Dialect.parse_type ⟨("Nullable(") ++ (("FixedString") ++ args ++ (")")) ++ (")")⟩
        = Except.ok ColType.Text
      ∧ Dialect.parse_type ⟨("Nullable(") ++ (("DateTime64") ++ args ++ (")")) ++ (")")⟩
        = Except.ok ColType.Timestamp)
    ∧ (Dialect.nullableUnwrap ⟨("Nullable(Decimal(10, 2))")⟩).data_type = ("Decimal(10, 2")
    ∧ Dialect.parse_type ⟨("Nullable(Decimal(10, 2))")⟩ = Except.ok ColType.Decimal := by
  refine ⟨?_, ?_, ?_, by decide, by decide⟩
  · intro inner
    show rstripParens (String.mk (inner.data ++ (')' :: []))) = rstripParens inner
    exact rstripParens_append_paren inner
  · intro s
    have h1 := rstripParens_length_le s
    rw [rstripParens_append_paren]
    show (rstripParens s).length < (s.data ++ (')' :: [])).length
    rw [List.length_append]
    show (rstripParens s).length < s.length + 1
    omega
  · intro args
    refine ⟨?_, ?_, ?_⟩
    · rw [String.append_assoc ("Decimal") args (")")]
      exact parse_type_wrapped_decimal (args ++ (")"))
    · rw [String.append_assoc ("FixedString") args (")")]
      exact parse_type_wrapped_fixedstring (args ++ (")"))
    · rw [String.append_assoc ("DateTime64") args (")")]
      exact parse_type_wrapped_datetime64 (args ++ (")"))

/-! ## Claim C3 -/

/-- C3: under both the rounding and the truncating policy the canonical
timestamp string has the same globally fixed total length
`TIMESTAMP_PRECISION_POS + 6`, so strings of different native precision are
directly comparable. -/
theorem normalize_timestamp_fixed_length (u : Nat) (coltype : TemporalType) :
    (evalNormalizeTimestamp u coltype).length = TIMESTAMP_PRECISION_POS + 6 := by
  obtain ⟨p, r⟩ := coltype
  cases r
  · exact rpadCH_length _ _ _
  · show (dt64ToString6 _).length = _
    unfold dt64ToString6
    rw [← str_data_length, data_append, data_append, List.length_append, List.length_append,
      str_data_length, formatDateTime_length]
    show 19 + 1 + (padDec 6 _).length = _
    rw [padDec_length]
    rfl

/-! ## Padding lemmas -/

theorem lpadL_of_le {l : List Char} {n : Nat} (c : Char) (h : l.length ≤ n) :
    lpadL l n c = List.replicate (n - l.length) c ++ l := by
  unfold lpadL
  split
  next h6 =>
    have he : l.length = n := le_antisymm h h6
    rw [← he, List.take_length, Nat.sub_self, List.replicate_zero, List.nil_append]
  next h6 => rfl

theorem rpadL_of_eq {l : List Char} {n : Nat} (c : Char) (h : l.length = n) :
    rpadL l n c = l := by
  unfold rpadL
  split
  next h6 => rw [← h, List.take_length]
  next h6 => exact absurd (le_of_eq h.symm) h6

/-- Assembly of the truncating-branch string: for a 19-character prefix and
a sub-million remainder, the `lpad` pads to exactly six digits and the final
`rpad` is the identity. -/
theorem truncating_frac_assembly (A : String) (hA : A.data.length = 19) (m : Nat)
    (hm : m < 1000000) :
    rpadCH (A ++ (".") ++ lpadCH (natToStr m) 6 '0') (TIMESTAMP_PRECISION_POS + 6) '0'
      = A ++ (".") ++ String.mk (List.replicate (6 - (natDec m).length) '0' ++ natDec m) := by
  have hlen : (natDec m).length ≤ 6 := natDec_length_le (by omega) (show m < 10 ^ 6 from hm)
  show String.mk (rpadL ((A.data ++ ('.' :: [])) ++ lpadL (natDec m) 6 '0')
      (TIMESTAMP_PRECISION_POS + 6) '0') = _
  rw [lpadL_of_le '0' hlen]
  rw [rpadL_of_eq '0' (show ((A.data ++ ('.' :: [])) ++
      (List.replicate (6 - (natDec m).length) '0' ++ natDec m)).length
        = TIMESTAMP_PRECISION_POS + 6 by
    simp only [List.length_append, List.length_replicate, List.length_cons, List.length_nil, hA]
    show _ = 26
    omega)]
  rfl

/-! ## Claim C7 -/

/-- C7: with `rounds = false` the fragment takes the microsecond remainder
of the value cast to precision `p`, with no rounding (truncating division),
left-pads it with `0` to exactly six digits, and concatenates it to the
`formatDateTime` whole-second prefix with a literal point separator. -/
theorem normalize_timestamp_truncating (u p : Nat) :
    evalNormalizeTimestamp u ⟨p, false⟩ =
      formatDateTime (u / 1000000) ++ (".") ++
        String.mk (List.replicate (6 - (natDec (castScale u p % 1000000)).length) '0'
          ++ natDec (castScale u p % 1000000))
    ∧ (List.replicate (6 - (natDec (castScale u p % 1000000)).length) '0'
        ++ natDec (castScale u p % 1000000)).length = 6
    ∧ castScale u p = u / 10 ^ (6 - p) * 10 ^ (6 - p) := by
  refine ⟨?_, ?_, rfl⟩
  · show rpadCH (formatDateTime (u / 1000000) ++ (".")
        ++ lpadCH (natToStr (castScale u p % 1000000)) 6 '0') (TIMESTAMP_PRECISION_POS + 6) '0'
      = _
    exact truncating_frac_assembly (formatDateTime (u / 1000000)) (formatDateTime_length _)
      (castScale u p % 1000000) (Nat.mod_lt _ (by omega))
  · have hlen : (natDec (castScale u p % 1000000)).length ≤ 6 :=
      natDec_length_le (by omega)
        (show castScale u p % 1000000 < 10 ^ 6 from Nat.mod_lt _ (by omega))
    rw [List.length_append, List.length_replicate]
    omega

/-! ## Evaluation of the boundary-crossing input 9.999 at precision 2 -/

theorem roundNum_boundary : roundNum ((9999 : ℚ) / 1000) 2 = 1000 := by
  rw [roundNum, Nat.floor_eq_iff (by positivity)]
  norm_num

theorem roundTo_boundary : roundTo ((9999 : ℚ) / 1000) 2 = 10 := by
  rw [roundTo, roundNum_boundary]
  norm_num

theorem intDigitsCH_boundary : intDigitsCH ((9999 : ℚ) / 1000) = 1 := by
  rw [intDigitsCH, if_neg (by norm_num)]
  rw [show ⌊(9999 : ℚ) / 1000⌋₊ = 9 by rw [Nat.floor_eq_iff (by positivity)]; norm_num]
  rw [Nat.log_eq_zero_iff.mpr (Or.inl (by norm_num))]

theorem intDigitsCH_ten : intDigitsCH (10 : ℚ) = 2 := by
  rw [intDigitsCH, if_neg (by norm_num)]
  rw [show ⌊(10 : ℚ)⌋₊ = 10 by rw [Nat.floor_eq_iff (by positivity)]; norm_num]
  nth_rewrite 2 [show (10 : Nat) = 10 ^ 1 by norm_num]
  rw [Nat.log_pow (by norm_num)]

theorem abs_boundary : |(9999 : ℚ) / 1000| = (9999 : ℚ) / 1000 :=
  abs_of_pos (by norm_num)

theorem toDecimal128Num_boundary :
    toDecimal128Num ((10 : ℚ) + 1 / 10 ^ (2 + 1)) (2 + 1) = 10001 := by
  rw [toDecimal128Num, Nat.floor_eq_iff (by positivity)]
  norm_num

theorem eval_boundary : evalNormalizeNumber ((9999 : ℚ) / 1000) 2 = ("10.0") := by
  have h3 : toDecimal128Num (roundTo ((9999 : ℚ) / 1000) 2 + 1 / 10 ^ (2 + 1)) (2 + 1)
      = 10001 := by
    rw [roundTo_boundary]
    exact toDecimal128Num_boundary
  show (if (0 : ℚ) ≤ 9999 / 1000 then ("") else ("-")) ++
      leftCH (decToStringCH (toDecimal128Num
        (roundTo |(9999 : ℚ) / 1000| 2 + 1 / 10 ^ (2 + 1)) (2 + 1)) (2 + 1))
        (intDigitsCH |(9999 : ℚ) / 1000| % 256 + 1 + 2) = ("10.0")
  rw [abs_boundary, h3, intDigitsCH_boundary, if_pos (by norm_num : (0 : ℚ) ≤ 9999 / 1000)]
  decide

/-! ## Claim C2 -/

/-- C2 is a bug in the code: the truncation digit count is computed from
the pre-rounding magnitude (`log10(abs(value))` on the original value
expression, source line 150), although the source's own algorithm comment
(line 128) says to slice with the digit count of the integer part of the
value being rendered, and the spec's edge-case note demands the rounded
magnitude.  At 9.999 with precision 2 the pre-rounding count is 1 while the
rounded value 10.00 has 2 integer digits; the fragment emits the
one-digit-short `"10.0"`, and the same pipeline truncated at the length the
rounded magnitude gives — as the claim requires — emits the correct
`"10.00"`. -/
theorem normalize_number_prerounding_digit_count :
    intDigitsCH |(9999 : ℚ) / 1000| = 1
    ∧ intDigitsCH (roundTo |(9999 : ℚ) / 1000| 2) = 2
    ∧ evalNormalizeNumber ((9999 : ℚ) / 1000) 2 = ("10.0")
    ∧ leftCH (decToStringCH (toDecimal128Num
        (roundTo |(9999 : ℚ) / 1000| 2 + 1 / 10 ^ (2 + 1)) (2 + 1)) (2 + 1))
        (intDigitsCH (roundTo |(9999 : ℚ) / 1000| 2) % 256 + 1 + 2) = ("10.00") := by
  refine ⟨?_, ?_, eval_boundary, ?_⟩
  · rw [abs_boundary, intDigitsCH_boundary]
  · rw [abs_boundary, roundTo_boundary, intDigitsCH_ten]
  · rw [abs_boundary, roundTo_boundary, intDigitsCH_ten, toDecimal128Num_boundary]
    decide

/-! ## Claim C1, counterexample part -/

/-- The claim C1 fails as stated: at 9.999 with precision 2 the emitted
string is `"10.0"`, whose point-and-fraction tail has length 2 rather than
the `1 + precision = 3` a fixed-format decimal string requires. -/
theorem normalize_number_boundary_counterexample :
    evalNormalizeNumber ((9999 : ℚ) / 1000) 2 = ("10.0")
    ∧ ((evalNormalizeNumber ((9999 : ℚ) / 1000) 2).data.dropWhile
        (fun c => c != '.')).length ≠ 1 + 2 := by
  refine ⟨eval_boundary, ?_⟩
  rw [eval_boundary]
  decide

/-! ## Claim C1, amended part: the epsilon-and-truncate pipeline -/

theorem toDecimal128Num_round_eps (a : ℚ) (p : Nat) :
    toDecimal128Num (roundTo a p + 1 / 10 ^ (p + 1)) (p + 1) = 10 * roundNum a p + 1 := by
  have hkey : (roundTo a p + 1 / 10 ^ (p + 1)) * 10 ^ (p + 1)
      = 10 * (roundNum a p : ℚ) + 1 := by
    rw [roundTo]
    have h0 : ((10 : ℚ) ^ p) ≠ 0 := by positivity
    field_simp
    ring
  rw [toDecimal128Num, hkey, Nat.floor_eq_iff (by positivity)]
  constructor
  · push_cast
    linarith
  · push_cast
    linarith

theorem tenN_div (n p : Nat) : (10 * n + 1) / 10 ^ (p + 1) = n / 10 ^ p := by
  have hpow : (10 : Nat) ^ (p + 1) = 10 * 10 ^ p := by ring
  have h1 : (10 * n + 1) / 10 = n := by omega
  rw [hpow, ← Nat.div_div_eq_div_mul, h1]

theorem tenN_mod (n p : Nat) : (10 * n + 1) % 10 ^ (p + 1) = 10 * (n % 10 ^ p) + 1 := by
  have hpow : (10 : Nat) ^ (p + 1) = 10 * 10 ^ p := by ring
  have hb : n % 10 ^ p < 10 ^ p := Nat.mod_lt _ (by positivity)
  have hsplit : 10 * n + 1 = (10 * (n % 10 ^ p) + 1) + (10 * 10 ^ p) * (n / 10 ^ p) := by
    conv_lhs => rw [← Nat.div_add_mod n (10 ^ p)]
    ring
  rw [hpow, hsplit, Nat.add_mul_mod_self_left]
  exact Nat.mod_eq_of_lt (by omega)

theorem padDec_succ_tens (p r : Nat) :
    padDec (p + 1) (10 * r + 1) = padDec p r ++ [Nat.digitChar 1] := by
  show padDec p ((10 * r + 1) / 10) ++ [Nat.digitChar ((10 * r + 1) % 10)] = _
  rw [show (10 * r + 1) / 10 = r by omega, show (10 * r + 1) % 10 = 1 by omega]

theorem dropTrailZeros_append_one (l : List Char) :
    dropTrailZeros (l ++ [Nat.digitChar 1]) = l ++ [Nat.digitChar 1] := by
  unfold dropTrailZeros
  rw [List.reverse_append, show List.reverse [Nat.digitChar 1] = [Nat.digitChar 1] from rfl,
    List.singleton_append, List.dropWhile_cons, if_neg (by decide), List.reverse_cons,
    List.reverse_reverse]

theorem decToStringCH_eps (n p : Nat) :
    decToStringCH (10 * n + 1) (p + 1)
      = natToStr (n / 10 ^ p) ++ (".")
        ++ String.mk (padDec p (n % 10 ^ p) ++ [Nat.digitChar 1]) := by
  show (if dropTrailZeros (padDec (p + 1) ((10 * n + 1) % 10 ^ (p + 1))) = [] then
      natToStr ((10 * n + 1) / 10 ^ (p + 1))
    else natToStr ((10 * n + 1) / 10 ^ (p + 1)) ++ (".")
      ++ String.mk (dropTrailZeros (padDec (p + 1) ((10 * n + 1) % 10 ^ (p + 1))))) = _
  rw [tenN_mod, tenN_div, padDec_succ_tens, dropTrailZeros_append_one, if_neg (by simp)]

theorem intDigitsCH_ratCast_div_pow (n p : Nat) :
    intDigitsCH ((n : ℚ) / 10 ^ p) = (natDec (n / 10 ^ p)).length := by
  by_cases hc : n < 10 ^ p
  · rw [intDigitsCH, if_pos (by rw [div_lt_one (by positivity)]; exact_mod_cast hc)]
    rw [Nat.div_eq_of_lt hc, natDec_eq]
    simp
  · rw [intDigitsCH,
      if_neg (by rw [not_lt, one_le_div (by positivity)]; exact_mod_cast Nat.le_of_not_lt hc)]
    have hf : ⌊(n : ℚ) / 10 ^ p⌋₊ = n / 10 ^ p := by
      rw [show ((10 : ℚ) ^ p) = ((10 ^ p : ℕ) : ℚ) by push_cast; ring]
      rw [Nat.floor_div_nat, Nat.floor_natCast]
    rw [hf, natDec_length]

theorem leftCH_int_frac (a f : List Char) (c : Char) (p : Nat) (hf : f.length = p) :
    leftCH (String.mk a ++ (".") ++ String.mk (f ++ [c])) (a.length + 1 + p)
      = String.mk a ++ (".") ++ String.mk f := by
  apply str_ext
  show ((a ++ ('.' :: [])) ++ (f ++ [c])).take (a.length + 1 + p) = (a ++ ('.' :: [])) ++ f
  rw [show a.length + 1 + p = (a ++ ('.' :: [])).length + p by simp]
  rw [List.take_append, ← hf, List.take_left]

/-- C1, amended: for precision at least one and a value whose integer-digit
count survives the rounding step (and fits the `toUInt8` cast), the fragment
yields the fixed-format decimal string: a `-` only when the value is
negative, the integer part of the rounded absolute value, a decimal point,
then exactly `p` fractional digits including trailing zeros. -/
theorem normalize_number_fixed_format (q : ℚ) (p : Nat) (hp : 1 ≤ p)
    (hdig : intDigitsCH (roundTo |q| p) = intDigitsCH |q|)
    (hsmall : intDigitsCH |q| < 256) :
    evalNormalizeNumber q p =
      (if 0 ≤ q then ("") else ("-")) ++
        (natToStr (roundNum |q| p / 10 ^ p) ++ (".")
          ++ String.mk (padDec p (roundNum |q| p % 10 ^ p)))
    ∧ (padDec p (roundNum |q| p % 10 ^ p)).length = p
    ∧ (padDec p (roundNum |q| p % 10 ^ p)).all Char.isDigit = true := by
  refine ⟨?_, padDec_length _ _, padDec_all_digits _ _⟩
  obtain ⟨k, rfl⟩ : ∃ k, p = k + 1 := ⟨p - 1, by omega⟩
  show (if 0 ≤ q then ("") else ("-")) ++ leftCH
      (decToStringCH
        (toDecimal128Num (roundTo |q| (k + 1) + 1 / 10 ^ (k + 1 + 1)) (k + 1 + 1)) (k + 1 + 1))
      (intDigitsCH |q| % 256 + 1 + (k + 1)) = _
  rw [toDecimal128Num_round_eps, decToStringCH_eps]
  have hlen : intDigitsCH |q| % 256
      = (natDec (roundNum |q| (k + 1) / 10 ^ (k + 1))).length := by
    rw [Nat.mod_eq_of_lt hsmall, ← hdig]
    exact intDigitsCH_ratCast_div_pow _ _
  rw [hlen]
  exact congrArg _ (leftCH_int_frac (natDec (roundNum |q| (k + 1) / 10 ^ (k + 1)))
    (padDec (k + 1) (roundNum |q| (k + 1) % 10 ^ (k + 1))) (Nat.digitChar 1) (k + 1)
    (padDec_length _ _))

/-! ## Evaluation at the in-range input 1.1 at precision 2 -/

theorem abs_eleven_tenths : |(11 : ℚ) / 10| = (11 : ℚ) / 10 :=
  abs_of_pos (by norm_num)

theorem roundNum_eleven_tenths : roundNum ((11 : ℚ) / 10) 2 = 110 := by
  rw [roundNum, Nat.floor_eq_iff (by positivity)]
  norm_num

theorem roundTo_eleven_tenths : roundTo ((11 : ℚ) / 10) 2 = (11 : ℚ) / 10 := by
  rw [roundTo, roundNum_eleven_tenths]
  norm_num

theorem intDigitsCH_eleven_tenths : intDigitsCH ((11 : ℚ) / 10) = 1 := by
  rw [intDigitsCH, if_neg (by norm_num)]
  rw [show ⌊(11 : ℚ) / 10⌋₊ = 1 by rw [Nat.floor_eq_iff (by positivity)]; norm_num]
  rw [Nat.log_eq_zero_iff.mpr (Or.inl (by norm_num))]

/-- Witness for the amended C1 at value 1.1 and precision 2. -/
theorem normalize_number_fixed_format_witness :
    evalNormalizeNumber ((11 : ℚ) / 10) 2 =
      (if 0 ≤ (11 : ℚ) / 10 then ("") else ("-")) ++
        (natToStr (roundNum |(11 : ℚ) / 10| 2 / 10 ^ 2) ++ (".")
          ++ String.mk (padDec 2 (roundNum |(11 : ℚ) / 10| 2 % 10 ^ 2)))
    ∧ (padDec 2 (roundNum |(11 : ℚ) / 10| 2 % 10 ^ 2)).length = 2
    ∧ (padDec 2 (roundNum |(11 : ℚ) / 10| 2 % 10 ^ 2)).all Char.isDigit = true :=
  normalize_number_fixed_format ((11 : ℚ) / 10) 2 (by norm_num)
    (by rw [abs_eleven_tenths, roundTo_eleven_tenths])
    (by rw [abs_eleven_tenths, intDigitsCH_eleven_tenths]; norm_num)

/-! ## Claim C4: the checksum projection -/

theorem hexBE_foldl_init (l : List Char) : ∀ c : Nat,
    l.foldl (fun acc ch => 16 * acc + hexDigitVal ch) c = c * 16 ^ l.length + hexBE l := by
  induction l with
  | nil => intro c; simp [hexBE]
  | cons a t ih =>
    intro c
    rw [List.foldl_cons, ih]
    rw [show hexBE (a :: t) = (16 * 0 + hexDigitVal a) * 16 ^ t.length + hexBE t from by
      rw [hexBE, List.foldl_cons, ih]]
    rw [List.length_cons]
    ring

theorem hexBE_cons (a : Char) (t : List Char) :
    hexBE (a :: t) = hexDigitVal a * 16 ^ t.length + hexBE t := by
  rw [hexBE, List.foldl_cons, hexBE_foldl_init]
  ring

theorem hexDigitVal_lt_sixteen : ∀ c ∈ hexChars, hexDigitVal c < 16 := by decide

theorem hexDigitVal_toLower : ∀ c ∈ hexChars,
    hexDigitVal (Char.toLower c) = hexDigitVal c := by decide

theorem hexBE_lt (l : List Char) (hhex : ∀ c ∈ l, c ∈ hexChars) :
    hexBE l < 16 ^ l.length := by
  induction l with
  | nil => simp [hexBE]
  | cons a t ih =>
    have hva : hexDigitVal a < 16 := hexDigitVal_lt_sixteen a (hhex a (List.mem_cons_self a t))
    have ht := ih (fun c hc => hhex c (List.mem_cons_of_mem a hc))
    rw [hexBE_cons, List.length_cons, pow_succ]
    have h1 : hexDigitVal a * 16 ^ t.length ≤ 15 * 16 ^ t.length :=
      Nat.mul_le_mul_right _ (by omega)
    omega

theorem hexBE_map_toLower (l : List Char) (hhex : ∀ c ∈ l, c ∈ hexChars) :
    hexBE (lowerUTF8 l) = hexBE l := by
  induction l with
  | nil => rfl
  | cons a t ih =>
    show hexBE (Char.toLower a :: lowerUTF8 t) = _
    rw [hexBE_cons, hexBE_cons,
      show (lowerUTF8 t).length = t.length from List.length_map t _,
      hexDigitVal_toLower a (hhex a (List.mem_cons_self a t)),
      ih (fun c hc => hhex c (List.mem_cons_of_mem a hc))]

theorem bytesLE_append_singleton (xs : List Nat) (b : Nat) :
    bytesLE (xs ++ [b]) = bytesLE xs + b * 256 ^ xs.length := by
  induction xs with
  | nil => simp [bytesLE]
  | cons a t ih =>
    show a + 256 * bytesLE (t ++ [b]) = (a + 256 * bytesLE t) + b * 256 ^ (a :: t).length
    rw [ih, List.length_cons]
    ring

theorem unhexPairs_length : ∀ l : List Char, l.length % 2 = 0 →
    (unhexPairs l).length = l.length / 2
  | [] => fun _ => rfl
  | [a] => fun h => by simp at h
  | a :: b :: t => fun h => by
    show (unhexPairs t).length + 1 = _
    rw [unhexPairs_length t (by simp only [List.length_cons] at h; omega)]
    simp only [List.length_cons]
    omega

theorem bytesLE_reverse_unhexPairs : ∀ l : List Char, l.length % 2 = 0 →
    bytesLE (unhexPairs l).reverse = hexBE l
  | [] => fun _ => rfl
  | [a] => fun h => by simp at h
  | a :: b :: t => fun h => by
    have hpar : t.length % 2 = 0 := by simp only [List.length_cons] at h; omega
    show bytesLE (((16 * hexDigitVal a + hexDigitVal b) :: unhexPairs t).reverse) = _
    rw [List.reverse_cons, bytesLE_append_singleton,
      bytesLE_reverse_unhexPairs t hpar, List.length_reverse, unhexPairs_length t hpar]
    rw [hexBE_cons, hexBE_cons]
    have h2 : (256 : Nat) ^ (t.length / 2) = 16 ^ t.length := by
      rw [show (256 : Nat) = 16 ^ 2 by norm_num, ← pow_mul]
      congr 1
      omega
    rw [h2, List.length_cons, pow_succ]
    ring

/-- C4: for a digest of `MD5_HEXDIGITS` hex characters, the fragment built
by `md5_as_int` extracts exactly the trailing `chk` hex digits — the
substring starts at the fixed 1-based offset `1 + MD5_HEXDIGITS - chk` —
reads them as an unsigned big-endian integer, and subtracts the centering
offset, for every checksum width `chk ≤ MD5_HEXDIGITS` and offset. -/
theorem md5_as_int_trailing_digits (chk off : Nat) (digest : List Char)
    (hchk : chk ≤ MD5_HEXDIGITS) (hlen : digest.length = MD5_HEXDIGITS)
    (hhex : ∀ c ∈ digest, c ∈ hexChars) :
    Dialect.substr_idx chk = 1 + MD5_HEXDIGITS - chk
    ∧ substrCH digest (Dialect.substr_idx chk) = digest.drop (MD5_HEXDIGITS - chk)
    ∧ (digest.drop (MD5_HEXDIGITS - chk)).length = chk
    ∧ evalMd5AsInt chk off digest
        = (hexBE (digest.drop (MD5_HEXDIGITS - chk)) : Int) - (off : Int) := by
  have h32 : MD5_HEXDIGITS = 32 := rfl
  have hidx : Dialect.substr_idx chk - 1 = MD5_HEXDIGITS - chk := by
    rw [Dialect.substr_idx, h32]
    omega
  have hsub : substrCH digest (Dialect.substr_idx chk) = digest.drop (MD5_HEXDIGITS - chk) := by
    show digest.drop (Dialect.substr_idx chk - 1) = _
    rw [hidx]
  have hdlen : (digest.drop (MD5_HEXDIGITS - chk)).length = chk := by
    rw [List.length_drop, hlen, h32]
    rw [h32] at hchk
    omega
  refine ⟨rfl, hsub, hdlen, ?_⟩
  have hhexl : ∀ c ∈ digest.drop (MD5_HEXDIGITS - chk), c ∈ hexChars :=
    fun c hc => hhex c (List.mem_of_mem_drop hc)
  show (reinterpretAsUInt128
      ((unhexCH (lowerUTF8 (substrCH digest (Dialect.substr_idx chk)))).reverse) : Int)
      - (off : Int) = _
  rw [hsub]
  have hmaplen : (lowerUTF8 (digest.drop (MD5_HEXDIGITS - chk))).length = chk := by
    rw [lowerUTF8, List.length_map, hdlen]
  have hval : bytesLE ((unhexCH (lowerUTF8 (digest.drop (MD5_HEXDIGITS - chk)))).reverse)
      = hexBE (digest.drop (MD5_HEXDIGITS - chk)) := by
    rw [unhexCH]
    split
    next hpar =>
      rw [bytesLE_reverse_unhexPairs _ (by rw [List.length_cons]; omega)]
      rw [hexBE_cons, show hexDigitVal '0' = 0 by decide, zero_mul, zero_add]
      exact hexBE_map_toLower _ hhexl
    next hpar =>
      rw [bytesLE_reverse_unhexPairs _ (by omega)]
      exact hexBE_map_toLower _ hhexl
  rw [reinterpretAsUInt128, hval]
  have hlt : hexBE (digest.drop (MD5_HEXDIGITS - chk)) < 2 ^ 128 := by
    have h1 := hexBE_lt (digest.drop (MD5_HEXDIGITS - chk)) hhexl
    rw [hdlen] at h1
    calc hexBE (digest.drop (MD5_HEXDIGITS - chk)) < 16 ^ chk := h1
      _ ≤ 16 ^ 32 := Nat.pow_le_pow_right (by omega) (by rw [h32] at hchk; exact hchk)
      _ = 2 ^ 128 := by norm_num
  rw [Nat.mod_eq_of_lt hlt]

/-- Witness for C4 at a concrete 32-digit digest, checksum width 12 and
offset 5. -/
theorem md5_as_int_trailing_digits_witness :
    Dialect.substr_idx 12 = 1 + MD5_HEXDIGITS - 12
    ∧ substrCH (("00112233445566778899aAbBcCdDeEfF").data) (Dialect.substr_idx 12)
        = (("00112233445566778899aAbBcCdDeEfF").data).drop (MD5_HEXDIGITS - 12)
    ∧ ((("00112233445566778899aAbBcCdDeEfF").data).drop (MD5_HEXDIGITS - 12)).length = 12
    ∧ evalMd5AsInt 12 5 (("00112233445566778899aAbBcCdDeEfF").data)
        = (hexBE ((("00112233445566778899aAbBcCdDeEfF").data).drop (MD5_HEXDIGITS - 12)) : Int)
          - ((5 : Nat) : Int) :=
  md5_as_int_trailing_digits 12 5 (("00112233445566778899aAbBcCdDeEfF").data)
    (by decide) (by decide) (by decide)
